import Mathlib

/-!
Verification development for the BybitSite market-data server
(`src/server/main.py`).  The mutable in-memory state (the `entries` map, the
`prev_close` table, the hourly index candles) is embedded as explicit state
passing over association lists; Python floats are modelled as rationals and
`round(x, 4)` as rounding of `x * 10000` to an integer.  A raw JSON numeric
field is modelled by its parse outcome: `none` when `float(...)` / `int(...)`
would raise (the field is missing or unparseable), `some v` otherwise.
-/

namespace BybitSite

/-- The closed timeframe enumeration (`TF_INTERVALS` keys in the source). -/
inductive TF where
  | M1 | M5 | M15 | H1 | H4 | D1
deriving DecidableEq, Repr, Fintype

/-- Canonical timeframe order (`TF_ORDER` in the source). -/
def TF_ORDER : List TF := [.M1, .M5, .M15, .H1, .H4, .D1]

/-- One per-`(symbol, timeframe)` metric record (`make_metric` shape). -/
structure Metric where
  timeframe : TF
  openTime : Int
  openPrice : Option ℚ
  prevClose : Option ℚ
  baselinePrice : Option ℚ
  changePercent : Option ℚ
  closeToClosePercent : Option ℚ
  volume : ℚ
  turnover : ℚ
  updatedAt : Int
deriving DecidableEq, Repr

/-- Embeds `make_metric`: the initial metric for timeframe `tf`. -/
def make_metric (tf : TF) : Metric :=
  { timeframe := tf
    openTime := 0
    openPrice := none
    prevClose := none
    baselinePrice := none
    changePercent := none
    closeToClosePercent := none
    volume := 0
    turnover := 0
    updatedAt := 0 }

/-- The per-entry `metrics` dict: exactly one slot per timeframe. -/
structure Metrics where
  m1 : Metric
  m5 : Metric
  m15 : Metric
  h1 : Metric
  h4 : Metric
  d1 : Metric
deriving DecidableEq, Repr

def Metrics.get (ms : Metrics) : TF → Metric
  | .M1 => ms.m1
  | .M5 => ms.m5
  | .M15 => ms.m15
  | .H1 => ms.h1
  | .H4 => ms.h4
  | .D1 => ms.d1

def Metrics.set (ms : Metrics) (tf : TF) (m : Metric) : Metrics :=
  match tf with
  | .M1 => { ms with m1 := m }
  | .M5 => { ms with m5 := m }
  | .M15 => { ms with m15 := m }
  | .H1 => { ms with h1 := m }
  | .H4 => { ms with h4 := m }
  | .D1 => { ms with d1 := m }

/-- The `metrics` dict as built by `ensure_entry`: `make_metric(tf)` per slot. -/
def initMetrics : Metrics :=
  { m1 := make_metric .M1
    m5 := make_metric .M5
    m15 := make_metric .M15
    h1 := make_metric .H1
    h4 := make_metric .H4
    d1 := make_metric .D1 }

/-- One symbol entry (`ensure_entry` shape). -/
structure Entry where
  symbol : String
  baseCoin : String
  quoteCoin : String
  lastPrice : Option ℚ
  lastPriceUpdatedAt : Int
  metrics : Metrics
deriving DecidableEq, Repr

/-- Embeds the entry construction in `ensure_entry`. -/
def make_entry (sym base quote : String) : Entry :=
  { symbol := sym
    baseCoin := base
    quoteCoin := quote
    lastPrice := none
    lastPriceUpdatedAt := 0
    metrics := initMetrics }

/-- The mutable store: the `entries` dict (insertion-ordered association
list) and the `prev_close` table keyed by `(symbol, timeframe)`. -/
structure Store where
  entries : List (String × Entry)
  prev_close : List ((String × TF) × ℚ)
deriving DecidableEq, Repr

/-- Dict read `entries.get(sym)` / `entries[sym]`. -/
def lookupEntry (st : Store) (sym : String) : Option Entry :=
  (st.entries.find? fun p => decide (p.1 = sym)).map Prod.snd

/-- In-place mutation of the entry stored under `sym` (the Python code only
ever mutates an existing entry dict, so no insertion happens here). -/
def setEntry (st : Store) (sym : String) (e : Entry) : Store :=
  { st with entries := st.entries.map fun p => if p.1 = sym then (p.1, e) else p }

/-- Dict read `prev_close.get((sym, tf))`. -/
def lookupPrev (l : List ((String × TF) × ℚ)) (sym : String) (tf : TF) : Option ℚ :=
  (l.find? fun p => decide (p.1 = (sym, tf))).map Prod.snd

/-- Dict write `prev_close[(sym, tf)] = c`: replace in place, else append. -/
def setPrev (l : List ((String × TF) × ℚ)) (sym : String) (tf : TF) (c : ℚ) :
    List ((String × TF) × ℚ) :=
  if l.any fun p => decide (p.1 = (sym, tf)) then
    l.map fun p => if p.1 = (sym, tf) then (p.1, c) else p
  else l ++ [((sym, tf), c)]

/-- A raw websocket candle. Each numeric field is the parse outcome of the
corresponding `int(...)` / `float(...)` call in `set_from_kline` (`none`
when the field is missing or the conversion raises), and `confirm` is
`bool(k.get("confirm", False))`. -/
structure Kline where
  start : Option Int
  open_ : Option ℚ
  close : Option ℚ
  volume : Option ℚ
  turnover : Option ℚ
  confirm : Bool
deriving DecidableEq, Repr

/-- The five parsed numeric fields of a candle. -/
structure ParsedKline where
  start_ms : Int
  o : ℚ
  c : ℚ
  v : ℚ
  t : ℚ
deriving DecidableEq, Repr

/-- The parse stage of `set_from_kline` (lines 124-134): all five numeric
conversions happen before any store mutation, so one failure aborts the
whole update with nothing written. -/
def parseKline (k : Kline) : Option ParsedKline := do
  let s ← k.start
  let o ← k.open_
  let c ← k.close
  let v ← k.volume
  let t ← k.turnover
  pure ⟨s, o, c, v, t⟩

/-- The metric mutation in `set_from_kline` (lines 136-152) applied to the
current metric `m`, parsed candle `p`, `prev_close` table read `base`, and
wall clock `now` (`now_ms()`). -/
def metric_from_kline (m : Metric) (p : ParsedKline) (base : Option ℚ) (now : Int) : Metric :=
  let m := { m with
    openTime := p.start_ms
    openPrice := some p.o
    baselinePrice := some p.o
    volume := p.v
    turnover := p.t
    updatedAt := now }
  let m := if 0 < p.o then { m with changePercent := some ((p.c - p.o) / p.o * 100) } else m
  match base with
  | some b =>
      if 0 < b then
        { m with prevClose := some b, closeToClosePercent := some ((p.c - b) / b * 100) }
      else m
  | none => m

/-- Embeds `set_from_kline`. Returns `none` when the Python function raises
(numeric parse failure, or `entries[sym]` KeyError); no mutation has
happened at that point, so the raising call is a store no-op. -/
def set_from_kline (st : Store) (sym : String) (tf : TF) (k : Kline) (now : Int) :
    Option Store := do
  let p ← parseKline k
  let e ← lookupEntry st sym
  let m := metric_from_kline (e.metrics.get tf) p (lookupPrev st.prev_close sym tf) now
  pure (setEntry st sym { e with metrics := e.metrics.set tf m })

/-- Embeds `roll_prev_close_on_close`. -/
def roll_prev_close_on_close (st : Store) (sym : String) (tf : TF) (close_price : ℚ) : Store :=
  { st with prev_close := setPrev st.prev_close sym tf close_price }

/-- Embeds `parse_ws_kline_and_update` applied to the last candle of the
`data` array (the spec's `applyKline(symbol, tf, candle, confirmed)`).
When `set_from_kline` raises, the exception propagates past the roll (which
is not reached) and is swallowed by the websocket read loop, so the whole
call is a no-op.  The roll itself re-parses `float(k.get("close"))` under
`suppress`, which succeeds exactly when `k.close` parsed. -/
def parse_ws_kline_and_update (st : Store) (sym : String) (tf : TF) (k : Kline) (now : Int) :
    Store :=
  match set_from_kline st sym tf k now with
  | none => st
  | some st1 =>
      if k.confirm then
        match k.close with
        | some cp => roll_prev_close_on_close st1 sym tf cp
        | none => st1
      else st1

/-- A raw ticker frame: `lastPrice` is `none` when the key is absent,
`some none` when present but `float(...)` raises, `some (some q)` when it
parses; `ts` is the parse outcome of
`int(data.get("ts") or data.get("timestamp") or now_ms())`. -/
structure TickerData where
  lastPrice : Option (Option ℚ)
  ts : Option Int
deriving DecidableEq, Repr

/-- Embeds `update_ticker`.  The two assignments run in order inside one
`suppress(Exception)` block, so a failing `int(ts)` still leaves a
previously executed `lastPrice` assignment in place. -/
def update_ticker (st : Store) (sym : String) (d : TickerData) : Store :=
  match lookupEntry st sym with
  | none => st
  | some e =>
      match d.lastPrice with
      | some pr =>
          match pr with
          | none => st
          | some f =>
              let e1 := { e with lastPrice := some f }
              match d.ts with
              | none => setEntry st sym e1
              | some t => setEntry st sym { e1 with lastPriceUpdatedAt := t }
      | none =>
          match d.ts with
          | none => st
          | some t => setEntry st sym { e with lastPriceUpdatedAt := t }

/-- Result record of `compute_d1_stats`. -/
structure D1Stats where
  positiveSum : ℚ
  negativeSum : ℚ
  count : ℕ
  netPercent : ℚ
deriving DecidableEq, Repr

/-- The loop body of `compute_d1_stats`: `count` is bumped for every entry
with a non-null D1 `changePercent`, positives go to `positive_sum`,
negatives add their absolute value to `negative_sum`. -/
def d1_step (a : ℚ × ℚ × ℕ) (p : String × Entry) : ℚ × ℚ × ℕ :=
  match (p.2.metrics.get .D1).changePercent with
  | none => a
  | some change =>
      let a := (a.1, a.2.1, a.2.2 + 1)
      if 0 < change then (a.1 + change, a.2.1, a.2.2)
      else if change < 0 then (a.1, a.2.1 + |change|, a.2.2)
      else a

/-- Embeds `compute_d1_stats`: one pass over `entries.values()` accumulating
`(positive_sum, negative_sum, count)`, then the final `net_percent`.
`math.isfinite` is always true in the rational model. -/
def compute_d1_stats (st : Store) : D1Stats :=
  let acc := st.entries.foldl d1_step (0, 0, 0)
  { positiveSum := acc.1
    negativeSum := acc.2.1
    count := acc.2.2
    netPercent := if 0 < acc.2.2 then (acc.2.1 - acc.1) / (acc.2.2 : ℚ) else 0 }

/-- The list of D1 change percentages of the entries that contribute to the
D1 statistic (non-null `changePercent`, in store order). -/
def d1changes (st : Store) : List ℚ :=
  st.entries.filterMap fun p => (p.2.metrics.get .D1).changePercent

/-- One `overview` row. -/
structure Overview where
  timeframe : TF
  gainers : ℕ
  losers : ℕ
deriving DecidableEq, Repr

/-- The loop body of `recompute_overview` for one timeframe: `ch is None`
entries are skipped, positives count as gainers, negatives as losers. -/
def overview_step (tf : TF) (gl : ℕ × ℕ) (p : String × Entry) : ℕ × ℕ :=
  match (p.2.metrics.get tf).changePercent with
  | none => gl
  | some ch =>
      if 0 < ch then (gl.1 + 1, gl.2)
      else if ch < 0 then (gl.1, gl.2 + 1)
      else gl

/-- The per-timeframe gainer/loser counting loop of `recompute_overview`. -/
def overview_counts (st : Store) (tf : TF) : ℕ × ℕ :=
  st.entries.foldl (overview_step tf) (0, 0)

/-- An entry counted as a gainer for `tf`: non-null positive change. -/
def isGainer (tf : TF) (p : String × Entry) : Bool :=
  match (p.2.metrics.get tf).changePercent with
  | some ch => decide (0 < ch)
  | none => false

/-- An entry counted as a loser for `tf`: non-null negative change. -/
def isLoser (tf : TF) (p : String × Entry) : Bool :=
  match (p.2.metrics.get tf).changePercent with
  | some ch => decide (ch < 0)
  | none => false

/-- Embeds `recompute_overview` followed by `list(overview.values())`: the
`overview` dict is created with one slot per timeframe in `TF_ORDER` order
and only ever updated in place, so its value list is exactly the six rows
in canonical order. -/
def recompute_overview (st : Store) : List Overview :=
  TF_ORDER.map fun tf =>
    { timeframe := tf, gainers := (overview_counts st tf).1, losers := (overview_counts st tf).2 }

/-! ### Index aggregator -/

/-- Config `INDEX_SLOT_MS = 60 * 60 * 1000`. -/
def INDEX_SLOT_MS : Int := 3600000

/-- Config `INDEX_BASE_VALUE = 0`. -/
def INDEX_BASE_VALUE : ℚ := 0

/-- Config `INDEX_MAX_CANDLES = 1000`. -/
def INDEX_MAX_CANDLES : ℕ := 1000

/-- Config `INDEX_HISTORY_EXPORT = 720`. -/
def INDEX_HISTORY_EXPORT : ℕ := 720

/-- Python `round(q, 4)` on the rational model: round `q * 10000` to an
integer and divide back. -/
def round4 (q : ℚ) : ℚ := ((round (q * 10000) : ℤ) : ℚ) / 10000

/-- One hourly index candle. -/
structure IndexCandle where
  startTime : Int
  open_ : ℚ
  high : ℚ
  low : ℚ
  close : ℚ
  netPercent : ℚ
  positiveSum : ℚ
  negativeSum : ℚ
  count : ℕ
deriving DecidableEq, Repr

/-- The index globals: `index_history`, `index_prev_close_value`,
`index_active_candle`. -/
structure IndexState where
  history : List IndexCandle
  prev_close_value : ℚ
  active : Option IndexCandle
deriving DecidableEq, Repr

/-- The state at process start (in-memory mode: empty history, base value,
no active candle). -/
def initIndexState : IndexState :=
  { history := [], prev_close_value := INDEX_BASE_VALUE, active := none }

/-- Embeds the in-memory part of `store_closed_candle`: append, truncate the
history to the last `INDEX_MAX_CANDLES`, and update `index_prev_close_value`
to the stored close. -/
def store_closed_candle (ist : IndexState) (candle : IndexCandle) : IndexState :=
  let h := ist.history ++ [candle]
  let h := if INDEX_MAX_CANDLES < h.length then h.drop (h.length - INDEX_MAX_CANDLES) else h
  { ist with history := h, prev_close_value := candle.close }

/-- Phase 1 of `maybe_capture_index_candle` (lines 304-306): freeze the
active candle when the slot has rolled past its start. -/
def close_phase (ist : IndexState) (slot_start : Int) : IndexState :=
  match ist.active with
  | some ac =>
      if ac.startTime < slot_start then
        { store_closed_candle ist ac with active := none }
      else ist
  | none => ist

/-- The candle built at slot entry (lines 312-322). -/
def newIndexCandle (slot_start : Int) (open_value : ℚ) : IndexCandle :=
  { startTime := slot_start
    open_ := round4 open_value
    high := round4 open_value
    low := round4 open_value
    close := round4 open_value
    netPercent := 0
    positiveSum := 0
    negativeSum := 0
    count := 0 }

/-- Phase 2 of `maybe_capture_index_candle` (lines 308-322): when no candle
is active, return early (`none`) if `count == 0` and the tick is not
forced, otherwise open a new candle at `prev_close_value`. -/
def create_phase (ist : IndexState) (slot_start : Int) (count : ℕ) (force : Bool) :
    Option IndexState :=
  match ist.active with
  | some _ => some ist
  | none =>
      if !force && count = 0 then none
      else some { ist with active := some (newIndexCandle slot_start ist.prev_close_value) }

/-- Phase 3 of `maybe_capture_index_candle` (lines 324-348): update the
active candle from the current D1 statistic. -/
def update_phase (ist : IndexState) (stats : D1Stats) : IndexState :=
  match ist.active with
  | none => ist
  | some ac =>
      let open_value := ac.open_
      let close_value := -stats.netPercent
      let high_value := max (max ac.high close_value) open_value
      let low_value := min (min ac.low close_value) open_value
      { ist with active := some { ac with
          close := round4 close_value
          high := round4 high_value
          low := round4 low_value
          netPercent := round4 stats.netPercent
          positiveSum := round4 stats.positiveSum
          negativeSum := round4 stats.negativeSum
          count := stats.count } }

/-- The slot boundary computed on each tick:
`(now // INDEX_SLOT_MS) * INDEX_SLOT_MS` (Python floor division). -/
def tick_slot (now : Int) : Int := (Int.fdiv now INDEX_SLOT_MS) * INDEX_SLOT_MS

/-- Embeds `maybe_capture_index_candle`: compute the D1 statistic and the
current slot, then run the three phases; the early return of phase 2 keeps
the phase-1 result. -/
def maybe_capture_index_candle (st : Store) (ist : IndexState) (now : Int) (force : Bool) :
    IndexState :=
  let stats := compute_d1_stats st
  let slot_start := tick_slot now
  let ist1 := close_phase ist slot_start
  match create_phase ist1 slot_start stats.count force with
  | none => ist1
  | some ist2 => update_phase ist2 stats

/-- Embeds `export_index_history`: the last `INDEX_HISTORY_EXPORT` closed
candles plus the active candle when present. -/
def export_index_history (ist : IndexState) : List IndexCandle :=
  let history :=
    if ist.history.length ≤ INDEX_HISTORY_EXPORT then ist.history
    else ist.history.drop (ist.history.length - INDEX_HISTORY_EXPORT)
  match ist.active with
  | some ac => history ++ [ac]
  | none => history

/-- Index states reachable from the in-memory start by ticks of the capture
loop (`maybe_capture_index_candle` against arbitrary store states, times
and force flags). -/
inductive ReachableIndex : IndexState → Prop where
  | init : ReachableIndex initIndexState
  | step (st : Store) (now : Int) (force : Bool) {ist : IndexState} :
      ReachableIndex ist → ReachableIndex (maybe_capture_index_candle st ist now force)

/-! ### Properties used by the claims -/

/-- Spec invariant `P6` for one index candle:
`low ≤ open ≤ high` and `low ≤ close ≤ high`. -/
def CandleOK (c : IndexCandle) : Prop :=
  c.low ≤ c.open_ ∧ c.open_ ≤ c.high ∧ c.low ≤ c.close ∧ c.close ≤ c.high

/-- Spec invariant `P2` for one metric: a non-null `openPrice` coincides
with `baselinePrice`. -/
def metricP2 (m : Metric) : Prop :=
  m.openPrice ≠ none → m.baselinePrice = m.openPrice

/-- Spec invariant `P3` for one metric: a non-null `closeToClosePercent`
comes with a non-null positive `prevClose`. -/
def metricP3 (m : Metric) : Prop :=
  m.closeToClosePercent ≠ none → m.prevClose ≠ none ∧ 0 < m.prevClose.getD 0

/-- `P2` and `P3` for every metric of every entry of the store. -/
def StoreInv (st : Store) : Prop :=
  ∀ p ∈ st.entries, ∀ tf : TF, metricP2 (p.2.metrics.get tf) ∧ metricP3 (p.2.metrics.get tf)

/-- Internal index invariant: every stored candle satisfies `P6`, and the
active candle's `open` is already 4-decimal rounded (it was produced by
`round(..., 4)` and is read back as the update's `open_value`). -/
def IndexInv (ist : IndexState) : Prop :=
  (∀ c ∈ ist.history, CandleOK c) ∧
    (∀ c, ist.active = some c → CandleOK c ∧ round4 c.open_ = c.open_)

/-! ### Concrete fixtures for witnesses and counterexamples -/

/-- A store holding the single known symbol `"X"` and an empty prev-close
table (the state right after `ensure_entry("X", ...)`). -/
def st0 : Store := ⟨[("X", make_entry "X" "X" "USDT")], []⟩

/-- The empty store. -/
def stE : Store := ⟨[], []⟩

/-- A confirmed candle: start 0, open 100, close 110, volume 1, turnover 1. -/
def k0 : Kline := ⟨some 0, some 100, some 110, some 1, some 1, true⟩

/-- A confirmed candle: start 0, open 100, close 120. -/
def kA : Kline := ⟨some 0, some 100, some 120, some 1, some 1, true⟩

/-- An unconfirmed candle: start 300000, open 120, close 126. -/
def kB : Kline := ⟨some 300000, some 120, some 126, some 1, some 1, false⟩

/-- An unconfirmed candle with non-positive open. -/
def kNeg : Kline := ⟨some 5, some (-5), some 7, some 2, some 3, false⟩

/-- A ticker frame whose `lastPrice` parses to `2` but whose timestamp
fails `int(...)` parsing. -/
def tickBad : TickerData := ⟨some (some 2), none⟩

/-- The all-zero hourly candle produced by the first forced tick on an
empty store. -/
def cW : IndexCandle := ⟨0, 0, 0, 0, 0, 0, 0, 0, 0⟩

/-! ### Supporting lemmas -/

theorem setEntry_prev_close (st : Store) (sym : String) (e : Entry) :
    (setEntry st sym e).prev_close = st.prev_close := rfl

theorem Metrics.get_set_same (ms : Metrics) (tf : TF) (m : Metric) :
    (ms.set tf m).get tf = m := by
  cases tf <;> rfl

theorem Metrics.get_set_ne (ms : Metrics) {tf tf' : TF} (m : Metric) (h : tf' ≠ tf) :
    (ms.set tf m).get tf' = ms.get tf' := by
  cases tf <;> cases tf' <;> first | rfl | exact absurd rfl h

theorem Metrics.set_set (ms : Metrics) (tf : TF) (m m' : Metric) :
    (ms.set tf m).set tf m' = ms.set tf m' := by
  cases tf <;> rfl

theorem lookup_map_set (l : List (String × Entry)) (sym : String) (e' : Entry)
    (h : ((l.find? fun p => decide (p.1 = sym)).map Prod.snd).isSome) :
    (((l.map fun p => if p.1 = sym then (p.1, e') else p).find? fun p =>
        decide (p.1 = sym)).map Prod.snd) = some e' := by
  induction l with
  | nil => simp at h
  | cons hd tl ih =>
      by_cases hh : hd.1 = sym
      · simp [List.find?, hh]
      · rw [List.map_cons, if_neg hh, List.find?_cons_of_neg _ (by simp [hh])]
        rw [List.find?_cons_of_neg _ (by simp [hh])] at h
        exact ih h

theorem lookupEntry_setEntry_self {st : Store} {sym : String}
    (h : (lookupEntry st sym).isSome) (e' : Entry) :
    lookupEntry (setEntry st sym e') sym = some e' :=
  lookup_map_set st.entries sym e' h

theorem lookupPrev_setPrev_self (l : List ((String × TF) × ℚ)) (sym : String) (tf : TF)
    (c : ℚ) : lookupPrev (setPrev l sym tf c) sym tf = some c := by
  unfold setPrev lookupPrev
  split
  · rename_i h
    induction l with
    | nil => simp at h
    | cons hd tl ih =>
        by_cases hh : hd.1 = (sym, tf)
        · simp [List.find?, hh]
        · simp only [List.any_cons, Bool.or_eq_true, decide_eq_true_eq, hh, false_or] at h
          rw [List.map_cons, if_neg hh, List.find?_cons_of_neg _ (by simp [hh])]
          exact ih h
  · rename_i h
    induction l with
    | nil => simp [List.find?]
    | cons hd tl ih =>
        simp only [List.any_cons, Bool.or_eq_true, decide_eq_true_eq, not_or] at h
        rw [List.cons_append, List.find?_cons_of_neg _ (by simp [h.1])]
        exact ih (by simp [h.2])

theorem metric_from_kline_idem (m : Metric) (p : ParsedKline) (base : Option ℚ) (now : Int) :
    metric_from_kline (metric_from_kline m p base now) p base now =
      metric_from_kline m p base now := by
  unfold metric_from_kline
  cases base with
  | none => by_cases ho : 0 < p.o <;> simp [ho]
  | some b => by_cases hb : 0 < b <;> by_cases ho : 0 < p.o <;> simp [hb, ho]

theorem setEntry_setEntry (st : Store) (sym : String) (e : Entry) :
    setEntry (setEntry st sym e) sym e = setEntry st sym e := by
  unfold setEntry
  cases st with
  | mk entries pc =>
      simp only [Store.mk.injEq, and_true, List.map_map]
      apply List.map_congr_left
      intro p _
      by_cases h : p.1 = sym <;> simp [h]

/-- Claims C1/C3/C10 read the successful branch of `set_from_kline`. -/
theorem set_from_kline_some {st : Store} {sym : String} {tf : TF} {k : Kline} {now : Int}
    {p : ParsedKline} {e : Entry} (hp : parseKline k = some p)
    (he : lookupEntry st sym = some e) :
    set_from_kline st sym tf k now =
      some (setEntry st sym { e with metrics := e.metrics.set tf (metric_from_kline (e.metrics.get tf) p (lookupPrev st.prev_close sym tf) now) }) := by
  simp [set_from_kline, hp, he]

/-- The successful unconfirmed apply as one equation. -/
theorem apply_kline_unconfirmed_eq {st : Store} {sym : String} {tf : TF} {k : Kline}
    {now : Int} {p : ParsedKline} {e : Entry} (hp : parseKline k = some p)
    (he : lookupEntry st sym = some e) (hcf : k.confirm = false) :
    parse_ws_kline_and_update st sym tf k now =
      setEntry st sym { e with metrics := e.metrics.set tf (metric_from_kline (e.metrics.get tf) p (lookupPrev st.prev_close sym tf) now) } := by
  simp [parse_ws_kline_and_update, @set_from_kline_some st sym tf k now p e hp he, hcf]

/-- C3 counterexample: applying the same confirmed kline twice is not
idempotent — the first apply rolls the prev-close table, so the second
apply fills `prevClose`/`closeToClosePercent` that the first left null. -/
theorem apply_kline_idem_cex :
    parse_ws_kline_and_update (parse_ws_kline_and_update st0 "X" .M5 k0 7) "X" .M5 k0 7 ≠
      parse_ws_kline_and_update st0 "X" .M5 k0 7 := by
  norm_num [parse_ws_kline_and_update, set_from_kline, parseKline, lookupEntry, lookupPrev,
    setEntry, setPrev, st0, k0, make_entry, roll_prev_close_on_close, metric_from_kline,
    Metrics.get, Metrics.set, initMetrics, make_metric, List.find?, Entry.mk.injEq,
    Metrics.mk.injEq, Metric.mk.injEq]
  simp

/-- C3 (amended): applying the same unconfirmed kline twice in succession
yields the same store as applying it once. -/
theorem apply_kline_idem_unconfirmed (st : Store) (sym : String) (tf : TF) (k : Kline)
    (now : Int) (hcf : k.confirm = false) :
    parse_ws_kline_and_update (parse_ws_kline_and_update st sym tf k now) sym tf k now =
      parse_ws_kline_and_update st sym tf k now := by
  cases hp : parseKline k with
  | none => simp [parse_ws_kline_and_update, set_from_kline, hp]
  | some p =>
      cases he : lookupEntry st sym with
      | none => simp [parse_ws_kline_and_update, set_from_kline, hp, he]
      | some e =>
          rw [apply_kline_unconfirmed_eq hp he hcf]
          have he1 : lookupEntry (setEntry st sym { e with metrics := e.metrics.set tf (metric_from_kline (e.metrics.get tf) p (lookupPrev st.prev_close sym tf) now) }) sym = some { e with metrics := e.metrics.set tf (metric_from_kline (e.metrics.get tf) p (lookupPrev st.prev_close sym tf) now) } :=
            lookupEntry_setEntry_self (by rw [he]; rfl) _
          rw [apply_kline_unconfirmed_eq hp he1 hcf]
          rw [setEntry_prev_close]
          simp only [Metrics.get_set_same, metric_from_kline_idem, Metrics.set_set]
          exact setEntry_setEntry st sym _

/-- Witness for the amended C3 theorem at a concrete unconfirmed kline. -/
theorem apply_kline_idem_unconfirmed_witness :
    parse_ws_kline_and_update (parse_ws_kline_and_update st0 "X" .M5 kB 2) "X" .M5 kB 2 =
      parse_ws_kline_and_update st0 "X" .M5 kB 2 :=
  apply_kline_idem_unconfirmed st0 "X" .M5 kB 2 rfl

/-- A successful parse determines the raw candle's close field (used by the
roll step, which re-parses `float(k.get("close"))`). -/
theorem parseKline_close {k : Kline} {p : ParsedKline} (h : parseKline k = some p) :
    k.close = some p.c := by
  cases k with
  | mk s o c v t cf =>
      cases s <;> cases o <;> cases c <;> cases v <;> cases t <;> simp [parseKline] at h <;>
        (try subst h) <;> rfl

theorem lookupEntry_roll (st : Store) (sym sym' : String) (tf : TF) (c : ℚ) :
    lookupEntry (roll_prev_close_on_close st sym tf c) sym' = lookupEntry st sym' := rfl

/-- The successful confirmed apply as one equation: metric update first,
then the prev-close roll. -/
theorem apply_kline_confirmed_eq {st : Store} {sym : String} {tf : TF} {k : Kline}
    {now : Int} {p : ParsedKline} {e : Entry} (hp : parseKline k = some p)
    (he : lookupEntry st sym = some e) (hcf : k.confirm = true) :
    parse_ws_kline_and_update st sym tf k now =
      roll_prev_close_on_close (setEntry st sym { e with metrics := e.metrics.set tf (metric_from_kline (e.metrics.get tf) p (lookupPrev st.prev_close sym tf) now) }) sym tf p.c := by
  simp [parse_ws_kline_and_update, @set_from_kline_some st sym tf k now p e hp he, hcf,
    parseKline_close hp]

/-- The prev-close branch of the metric update when the table holds a
positive value. -/
theorem metric_from_kline_prevClose {m : Metric} {p : ParsedKline} {b : ℚ} {now : Int}
    (hb : 0 < b) :
    (metric_from_kline m p (some b) now).prevClose = some b ∧
      (metric_from_kline m p (some b) now).closeToClosePercent =
        some ((p.c - b) / b * 100) := by
  unfold metric_from_kline
  split <;> simp [hb]

/-- C1 (confirm/roll law): a confirmed kline with close `c > 0` followed by
an unconfirmed kline with open `o > 0` and close `c'` leaves
`prevClose = c` and `closeToClosePercent = (c' − c)/c × 100` — the
prev-close table is written after the metric update, so the second apply
reads the just-closed value. -/
theorem confirm_roll_law (st : Store) (sym : String) (tf : TF) (k k' : Kline)
    (now now' : Int) (e : Entry) (p p' : ParsedKline)
    (he : lookupEntry st sym = some e)
    (hk : parseKline k = some p) (hc : 0 < p.c) (hcf : k.confirm = true)
    (hk' : parseKline k' = some p') (ho' : 0 < p'.o) (hcf' : k'.confirm = false) :
    ((lookupEntry (parse_ws_kline_and_update (parse_ws_kline_and_update st sym tf k now) sym tf k' now') sym).map
        fun e2 => ((e2.metrics.get tf).prevClose, (e2.metrics.get tf).closeToClosePercent)) =
      some (some p.c, some ((p'.c - p.c) / p.c * 100)) := by
  rw [apply_kline_confirmed_eq hk he hcf]
  have he1 : lookupEntry (roll_prev_close_on_close (setEntry st sym { e with metrics := e.metrics.set tf (metric_from_kline (e.metrics.get tf) p (lookupPrev st.prev_close sym tf) now) }) sym tf p.c) sym = some { e with metrics := e.metrics.set tf (metric_from_kline (e.metrics.get tf) p (lookupPrev st.prev_close sym tf) now) } := by
    rw [lookupEntry_roll]
    exact lookupEntry_setEntry_self (by rw [he]; rfl) _
  rw [apply_kline_unconfirmed_eq hk' he1 hcf']
  have he2 := @lookupEntry_setEntry_self (roll_prev_close_on_close (setEntry st sym { e with metrics := e.metrics.set tf (metric_from_kline (e.metrics.get tf) p (lookupPrev st.prev_close sym tf) now) }) sym tf p.c) sym (by rw [he1]; rfl)
  rw [he2]
  have hprev : lookupPrev (roll_prev_close_on_close (setEntry st sym { e with metrics := e.metrics.set tf (metric_from_kline (e.metrics.get tf) p (lookupPrev st.prev_close sym tf) now) }) sym tf p.c).prev_close sym tf = some p.c := by
    unfold roll_prev_close_on_close
    exact lookupPrev_setPrev_self _ sym tf p.c
  simp only [Option.map_some']
  rw [hprev]
  simp only [Metrics.get_set_same]
  rw [(metric_from_kline_prevClose (p := p') (b := p.c) hc).1,
    (metric_from_kline_prevClose (p := p') (b := p.c) hc).2]

/-- Witness for C1 at the spec's scenario-3 numbers (open 100 → close 120
confirmed, then open 120 → close 126). -/
theorem confirm_roll_law_witness :
    ((lookupEntry (parse_ws_kline_and_update (parse_ws_kline_and_update st0 "X" .M5 kA 1) "X" .M5 kB 2) "X").map
        fun e2 => ((e2.metrics.get .M5).prevClose, (e2.metrics.get .M5).closeToClosePercent)) =
      some (some 120, some 5) := by
  have h := confirm_roll_law st0 "X" .M5 kA kB 1 2 (make_entry "X" "X" "USDT")
    ⟨0, 100, 120, 1, 1⟩ ⟨300000, 120, 126, 1, 1⟩ rfl rfl (by norm_num) rfl rfl (by norm_num) rfl
  rw [h]
  norm_num

/-- C2 counterexample: a ticker frame whose `lastPrice` parses but whose
timestamp fails `int(...)` still mutates the store, so the mutation is not
atomic as claimed. -/
theorem ticker_atomicity_cex : update_ticker st0 "X" tickBad ≠ st0 := by
  norm_num [update_ticker, lookupEntry, setEntry, st0, tickBad, make_entry, List.find?,
    Store.mk.injEq, Entry.mk.injEq]
  simp

/-- C2 (amended): kline application is atomic (unknown symbol or any failed
numeric parse leaves the whole store unchanged), and a ticker whose
`lastPrice` fails parsing leaves the store unchanged; but a ticker whose
`lastPrice` parses while its timestamp fails parsing writes `lastPrice`
alone, leaving `lastPriceUpdatedAt` unchanged. -/
theorem store_mutation_atomicity :
    (∀ (st : Store) (sym : String) (tf : TF) (k : Kline) (now : Int),
        lookupEntry st sym = none → parse_ws_kline_and_update st sym tf k now = st) ∧
    (∀ (st : Store) (sym : String) (tf : TF) (k : Kline) (now : Int),
        parseKline k = none → parse_ws_kline_and_update st sym tf k now = st) ∧
    (∀ (st : Store) (sym : String) (d : TickerData),
        d.lastPrice = some none → update_ticker st sym d = st) ∧
    (∀ (st : Store) (sym : String) (d : TickerData) (e : Entry) (f : ℚ),
        lookupEntry st sym = some e → d.lastPrice = some (some f) → d.ts = none →
          update_ticker st sym d = setEntry st sym { e with lastPrice := some f }) := by
  refine ⟨?_, ?_, ?_, ?_⟩
  · intro st sym tf k now h
    cases hp : parseKline k <;>
      simp [parse_ws_kline_and_update, set_from_kline, hp, h]
  · intro st sym tf k now h
    simp [parse_ws_kline_and_update, set_from_kline, h]
  · intro st sym d h
    cases he : lookupEntry st sym <;> simp [update_ticker, he, h]
  · intro st sym d e f he hl ht
    simp [update_ticker, he, hl, ht]

/-- Witness for the amended C2 theorem: an unknown-symbol kline is a no-op
and the concrete bad-timestamp ticker performs exactly the partial write. -/
theorem store_mutation_atomicity_witness :
    parse_ws_kline_and_update st0 "ZZZ" .M1 k0 3 = st0 ∧
      update_ticker st0 "X" tickBad =
        setEntry st0 "X" { make_entry "X" "X" "USDT" with lastPrice := some 2 } :=
  ⟨store_mutation_atomicity.1 st0 "ZZZ" .M1 k0 3 rfl,
    store_mutation_atomicity.2.2.2 st0 "X" tickBad (make_entry "X" "X" "USDT") 2 rfl rfl rfl⟩

theorem d1_fold (l : List (String × Entry)) (a : ℚ × ℚ × ℕ) :
    l.foldl d1_step a =
      (a.1 + ((l.filterMap fun p => (p.2.metrics.get .D1).changePercent).map fun ch => max 0 ch).sum,
       a.2.1 + ((l.filterMap fun p => (p.2.metrics.get .D1).changePercent).map fun ch => max 0 (-ch)).sum,
       a.2.2 + (l.filterMap fun p => (p.2.metrics.get .D1).changePercent).length) := by
  induction l generalizing a with
  | nil => simp
  | cons hd tl ih =>
      rw [List.foldl_cons, ih]
      unfold d1_step
      cases hch : (hd.2.metrics.get .D1).changePercent with
      | none => simp [hch]
      | some ch =>
          simp only [List.filterMap_cons, hch, List.map_cons, List.sum_cons,
            List.length_cons, Prod.mk.injEq]
          rcases lt_trichotomy ch 0 with h1 | h1 | h1
          · rw [if_neg (by linarith), if_pos h1]
            dsimp only
            refine ⟨by rw [max_eq_left h1.le]; ring, ?_, by omega⟩
            rw [max_eq_right (by linarith : (0:ℚ) ≤ -ch), abs_of_neg h1]; ring
          · subst h1
            rw [if_neg (by linarith), if_neg (by linarith)]
            dsimp only
            refine ⟨by simp, by simp, by omega⟩
          · rw [if_pos h1]
            dsimp only
            refine ⟨by rw [max_eq_right h1.le]; ring, ?_, by omega⟩
            rw [max_eq_left (by linarith : -ch ≤ (0:ℚ))]; ring

/-- C4 (D1 statistic): the sums are the clipped positive/negative parts of
the contributing D1 changes, `count` is the number of contributors, and
`netPercent = (negativeSum − positiveSum) / count` with `0` for an empty
cross-section; both sums are non-negative. -/
theorem d1_statistic_correct (st : Store) :
    (compute_d1_stats st).positiveSum = ((d1changes st).map fun ch => max 0 ch).sum ∧
    (compute_d1_stats st).negativeSum = ((d1changes st).map fun ch => max 0 (-ch)).sum ∧
    (compute_d1_stats st).count = (d1changes st).length ∧
    (compute_d1_stats st).netPercent = (if (d1changes st).length = 0 then 0 else ((compute_d1_stats st).negativeSum - (compute_d1_stats st).positiveSum) / ((d1changes st).length : ℚ)) ∧
    0 ≤ (compute_d1_stats st).positiveSum ∧ 0 ≤ (compute_d1_stats st).negativeSum := by
  have h := d1_fold st.entries (0, 0, 0)
  have hps : (compute_d1_stats st).positiveSum = (st.entries.foldl d1_step (0, 0, 0)).1 := rfl
  have hns : (compute_d1_stats st).negativeSum = (st.entries.foldl d1_step (0, 0, 0)).2.1 := rfl
  have hc : (compute_d1_stats st).count = (st.entries.foldl d1_step (0, 0, 0)).2.2 := rfl
  have hnp : (compute_d1_stats st).netPercent =
      (if 0 < (st.entries.foldl d1_step (0, 0, 0)).2.2 then
        ((st.entries.foldl d1_step (0, 0, 0)).2.1 - (st.entries.foldl d1_step (0, 0, 0)).1) /
          ((st.entries.foldl d1_step (0, 0, 0)).2.2 : ℚ)
      else 0) := rfl
  rw [h] at hps hns hc hnp
  simp only [zero_add] at hps hns hc hnp
  have hpos : 0 ≤ ((d1changes st).map fun ch => max 0 ch).sum :=
    List.sum_nonneg (by intro x hx; obtain ⟨ch, _, rfl⟩ := List.mem_map.mp hx; exact le_max_left 0 ch)
  have hneg : 0 ≤ ((d1changes st).map fun ch => max 0 (-ch)).sum :=
    List.sum_nonneg (by intro x hx; obtain ⟨ch, _, rfl⟩ := List.mem_map.mp hx; exact le_max_left 0 (-ch))
  refine ⟨by rw [hps]; rfl, by rw [hns]; rfl, by rw [hc]; rfl, ?_,
    by rw [hps]; exact hpos, by rw [hns]; exact hneg⟩
  rw [hnp, hps, hns]
  simp only [d1changes]
  by_cases hl : (st.entries.filterMap fun p => (p.2.metrics.get TF.D1).changePercent).length = 0
  · simp [hl]
  · rw [if_neg hl, if_pos (Nat.pos_of_ne_zero hl)]

theorem overview_fold (tf : TF) (l : List (String × Entry)) (gl : ℕ × ℕ) :
    l.foldl (overview_step tf) gl =
      (gl.1 + l.countP (isGainer tf), gl.2 + l.countP (isLoser tf)) := by
  induction l generalizing gl with
  | nil => simp
  | cons hd tl ih =>
      rw [List.foldl_cons, ih]
      unfold overview_step
      cases hch : (hd.2.metrics.get tf).changePercent with
      | none => simp [List.countP_cons, isGainer, isLoser, hch]
      | some ch =>
          dsimp only
          rcases lt_trichotomy ch 0 with h1 | h1 | h1
          · rw [if_neg (by linarith), if_pos h1]
            dsimp only
            simp only [List.countP_cons, isGainer, isLoser, hch, Prod.mk.injEq,
              decide_eq_true_eq]
            rw [if_neg (by simpa using not_lt.mpr h1.le), if_pos (by simpa using h1)]
            omega
          · subst h1
            rw [if_neg (by linarith), if_neg (by linarith)]
            simp [List.countP_cons, isGainer, isLoser, hch]
          · rw [if_pos h1]
            dsimp only
            simp only [List.countP_cons, isGainer, isLoser, hch, Prod.mk.injEq,
              decide_eq_true_eq]
            rw [if_pos (by simpa using h1), if_neg (by simpa using not_lt.mpr h1.le)]
            omega

/-- C8 (overview correctness): after `recompute_overview`, each row counts
exactly the entries with non-null positive (resp. negative) change for its
timeframe, and the rows are exactly the six timeframes in canonical
order. -/
theorem overview_correct (st : Store) :
    recompute_overview st = (TF_ORDER.map fun tf => { timeframe := tf, gainers := st.entries.countP (isGainer tf), losers := st.entries.countP (isLoser tf) }) ∧
    (recompute_overview st).length = 6 ∧
    (recompute_overview st).map Overview.timeframe = TF_ORDER := by
  have h1 : recompute_overview st = TF_ORDER.map fun tf =>
      { timeframe := tf, gainers := st.entries.countP (isGainer tf),
        losers := st.entries.countP (isLoser tf) } := by
    apply List.map_congr_left
    intro tf _
    rw [show overview_counts st tf = st.entries.foldl (overview_step tf) (0, 0) from rfl,
      overview_fold]
    simp
  refine ⟨h1, by rw [h1]; rfl, ?_⟩
  rw [h1, List.map_map]
  rfl


theorem lookupEntry_mem {st : Store} {sym : String} {e : Entry}
    (he : lookupEntry st sym = some e) : ∃ a, (a, e) ∈ st.entries := by
  unfold lookupEntry at he
  cases hf : st.entries.find? fun p => decide (p.1 = sym) with
  | none => rw [hf] at he; simp at he
  | some q =>
      rw [hf] at he
      simp only [Option.map_some', Option.some.injEq] at he
      refine ⟨q.1, ?_⟩
      have hq := List.mem_of_find?_eq_some hf
      rw [← he]
      simpa using hq

theorem entryInv_of_lookup {st : Store} {sym : String} {e : Entry} (h : StoreInv st)
    (he : lookupEntry st sym = some e) :
    ∀ tf, metricP2 (e.metrics.get tf) ∧ metricP3 (e.metrics.get tf) := by
  obtain ⟨a, ha⟩ := lookupEntry_mem he
  exact fun tf => h (a, e) ha tf

theorem StoreInv_setEntry {st : Store} {sym : String} {e' : Entry} (h : StoreInv st)
    (he' : ∀ tf, metricP2 (e'.metrics.get tf) ∧ metricP3 (e'.metrics.get tf)) :
    StoreInv (setEntry st sym e') := by
  intro p hp tf
  obtain ⟨q, hq, hpq⟩ := List.mem_map.mp hp
  by_cases hqs : q.1 = sym
  · rw [if_pos hqs] at hpq
    rw [← hpq]
    exact he' tf
  · rw [if_neg hqs] at hpq
    rw [← hpq]
    exact h q hq tf

theorem metric_from_kline_base_fields (m : Metric) (p : ParsedKline) (base : Option ℚ)
    (now : Int) :
    (metric_from_kline m p base now).openTime = p.start_ms ∧
    (metric_from_kline m p base now).openPrice = some p.o ∧
    (metric_from_kline m p base now).baselinePrice = some p.o ∧
    (metric_from_kline m p base now).volume = p.v ∧
    (metric_from_kline m p base now).turnover = p.t ∧
    (metric_from_kline m p base now).updatedAt = now := by
  unfold metric_from_kline
  cases base with
  | none => split <;> simp
  | some b => by_cases hb : 0 < b <;> split <;> simp [hb]

theorem metric_from_kline_changePercent_stale {m : Metric} {p : ParsedKline}
    {base : Option ℚ} {now : Int} (h : ¬ 0 < p.o) :
    (metric_from_kline m p base now).changePercent = m.changePercent := by
  unfold metric_from_kline
  cases base with
  | none => simp [h]
  | some b => by_cases hb : 0 < b <;> simp [h, hb]

theorem metric_from_kline_prev_stale {m : Metric} {p : ParsedKline} {base : Option ℚ}
    {now : Int} (h : base = none ∨ ∃ b, base = some b ∧ b ≤ 0) :
    (metric_from_kline m p base now).prevClose = m.prevClose ∧
      (metric_from_kline m p base now).closeToClosePercent = m.closeToClosePercent := by
  unfold metric_from_kline
  rcases h with rfl | ⟨b, rfl, hb⟩
  · dsimp only
    split <;> simp
  · dsimp only
    rw [if_neg (not_lt.mpr hb)]
    split <;> simp

theorem metric_from_kline_P3 {m : Metric} (p : ParsedKline) (base : Option ℚ) (now : Int)
    (hm : metricP3 m) : metricP3 (metric_from_kline m p base now) := by
  unfold metricP3 metric_from_kline
  cases base with
  | none =>
      dsimp only
      split <;> simpa using hm
  | some b =>
      dsimp only
      by_cases hb : 0 < b
      · rw [if_pos hb]
        split <;> simp [hb]
      · rw [if_neg hb]
        split <;> simpa using hm

theorem metric_from_kline_P2 (m : Metric) (p : ParsedKline) (base : Option ℚ) (now : Int) :
    metricP2 (metric_from_kline m p base now) := by
  have h := metric_from_kline_base_fields m p base now
  unfold metricP2
  rw [h.2.1, h.2.2.1]
  intro
  rfl

theorem applyKline_entryInv {st : Store} {sym : String} {tf : TF} {now : Int}
    {p : ParsedKline} {e : Entry} (h : StoreInv st) (he : lookupEntry st sym = some e) :
    ∀ tf', metricP2 (({ e with metrics := e.metrics.set tf (metric_from_kline (e.metrics.get tf) p (lookupPrev st.prev_close sym tf) now) } : Entry).metrics.get tf') ∧
      metricP3 (({ e with metrics := e.metrics.set tf (metric_from_kline (e.metrics.get tf) p (lookupPrev st.prev_close sym tf) now) } : Entry).metrics.get tf') := by
  intro tf'
  by_cases htf : tf' = tf
  · subst htf
    show metricP2 ((e.metrics.set tf' _).get tf') ∧ metricP3 ((e.metrics.set tf' _).get tf')
    rw [Metrics.get_set_same]
    exact ⟨metric_from_kline_P2 _ _ _ _,
      metric_from_kline_P3 _ _ _ ((entryInv_of_lookup h he tf').2)⟩
  · show metricP2 ((e.metrics.set tf _).get tf') ∧ metricP3 ((e.metrics.set tf _).get tf')
    rw [Metrics.get_set_ne _ _ htf]
    exact entryInv_of_lookup h he tf'

/-- C6 (invariants P2 and P3): both hold for the initial metric of every
timeframe and are preserved by every kline application and every ticker
update. -/
theorem metric_invariants :
    (∀ tf : TF, metricP2 (make_metric tf) ∧ metricP3 (make_metric tf)) ∧
    (∀ (st : Store) (sym : String) (tf : TF) (k : Kline) (now : Int),
        StoreInv st → StoreInv (parse_ws_kline_and_update st sym tf k now)) ∧
    (∀ (st : Store) (sym : String) (d : TickerData),
        StoreInv st → StoreInv (update_ticker st sym d)) := by
  refine ⟨?_, ?_, ?_⟩
  · intro tf
    constructor
    · intro h
      exact absurd rfl h
    · intro h
      exact absurd rfl h
  · intro st sym tf k now h
    cases hp : parseKline k with
    | none => rw [store_mutation_atomicity.2.1 st sym tf k now hp]; exact h
    | some p =>
        cases he : lookupEntry st sym with
        | none => rw [store_mutation_atomicity.1 st sym tf k now he]; exact h
        | some e =>
            cases hcf : k.confirm
            · rw [apply_kline_unconfirmed_eq hp he hcf]
              exact StoreInv_setEntry h (applyKline_entryInv h he)
            · rw [apply_kline_confirmed_eq hp he hcf]
              exact StoreInv_setEntry h (applyKline_entryInv h he)
  · intro st sym d h
    cases he : lookupEntry st sym with
    | none => simp [update_ticker, he]; exact h
    | some e =>
        have hinv := entryInv_of_lookup h he
        cases hl : d.lastPrice with
        | none =>
            cases ht : d.ts with
            | none => simp [update_ticker, he, hl, ht]; exact h
            | some t =>
                simp only [update_ticker, he, hl, ht]
                exact StoreInv_setEntry h hinv
        | some pr =>
            cases pr with
            | none => simp [update_ticker, he, hl]; exact h
            | some f =>
                cases ht : d.ts with
                | none =>
                    simp only [update_ticker, he, hl, ht]
                    exact StoreInv_setEntry h hinv
                | some t =>
                    simp only [update_ticker, he, hl, ht]
                    exact StoreInv_setEntry h hinv

/-- Witness for C6 at the one-symbol store and a concrete confirmed kline. -/
theorem metric_invariants_witness :
    (metricP2 (make_metric .M1) ∧ metricP3 (make_metric .M1)) ∧
      StoreInv (parse_ws_kline_and_update st0 "X" .M5 k0 7) := by
  have hinv : StoreInv st0 := by
    intro p hp tf
    simp only [st0, List.mem_singleton] at hp
    subst hp
    cases tf <;> exact ⟨fun h => absurd rfl h, fun h => absurd rfl h⟩
  exact ⟨metric_invariants.1 .M1, metric_invariants.2.1 st0 "X" .M5 k0 7 hinv⟩


/-- Both confirm branches leave the symbol's entry at the same updated
metric record. -/
theorem lookupEntry_applyKline {st : Store} {sym : String} {tf : TF} {k : Kline}
    {now : Int} {p : ParsedKline} {e : Entry}
    (hp : parseKline k = some p) (he : lookupEntry st sym = some e) :
    lookupEntry (parse_ws_kline_and_update st sym tf k now) sym =
      some { e with metrics := e.metrics.set tf (metric_from_kline (e.metrics.get tf) p (lookupPrev st.prev_close sym tf) now) } := by
  cases hcf : k.confirm
  · rw [apply_kline_unconfirmed_eq hp he hcf]
    exact lookupEntry_setEntry_self (by rw [he]; rfl) _
  · rw [apply_kline_confirmed_eq hp he hcf, lookupEntry_roll]
    exact lookupEntry_setEntry_self (by rw [he]; rfl) _

/-- C10 (staleness of skipped computations): a parseable kline applied to a
known symbol always overwrites `openTime`, `openPrice`, `baselinePrice`,
`volume`, `turnover` and `updatedAt`; but when its open is non-positive,
`changePercent` keeps its previous value, and when the prev-close table
entry is absent or non-positive, `prevClose` and `closeToClosePercent`
keep their previous values. -/
theorem skipped_computation_staleness (st : Store) (sym : String) (tf : TF) (k : Kline)
    (now : Int) (e : Entry) (p : ParsedKline)
    (he : lookupEntry st sym = some e) (hk : parseKline k = some p) :
    ((lookupEntry (parse_ws_kline_and_update st sym tf k now) sym).map fun e' =>
        ((e'.metrics.get tf).openTime, (e'.metrics.get tf).openPrice,
          (e'.metrics.get tf).baselinePrice, (e'.metrics.get tf).volume,
          (e'.metrics.get tf).turnover, (e'.metrics.get tf).updatedAt)) =
      some (p.start_ms, some p.o, some p.o, p.v, p.t, now) ∧
    (¬ 0 < p.o →
      ((lookupEntry (parse_ws_kline_and_update st sym tf k now) sym).map fun e' =>
          (e'.metrics.get tf).changePercent) = some (e.metrics.get tf).changePercent) ∧
    ((lookupPrev st.prev_close sym tf = none ∨
        ∃ b, lookupPrev st.prev_close sym tf = some b ∧ b ≤ 0) →
      ((lookupEntry (parse_ws_kline_and_update st sym tf k now) sym).map fun e' =>
          ((e'.metrics.get tf).prevClose, (e'.metrics.get tf).closeToClosePercent)) =
        some ((e.metrics.get tf).prevClose, (e.metrics.get tf).closeToClosePercent)) := by
  rw [lookupEntry_applyKline hk he]
  simp only [Option.map_some', Metrics.get_set_same]
  have hbf := metric_from_kline_base_fields (e.metrics.get tf) p (lookupPrev st.prev_close sym tf) now
  refine ⟨?_, ?_, ?_⟩
  · rw [hbf.1, hbf.2.1, hbf.2.2.1, hbf.2.2.2.1, hbf.2.2.2.2.1, hbf.2.2.2.2.2]
  · intro ho
    rw [metric_from_kline_changePercent_stale ho]
  · intro hb
    have hs := @metric_from_kline_prev_stale (e.metrics.get tf) p (lookupPrev st.prev_close sym tf) now hb
    rw [hs.1, hs.2]

/-- Witness for C10: non-positive open and an absent prev-close entry leave
`changePercent`, `prevClose` and `closeToClosePercent` untouched while the
base fields are overwritten. -/
theorem skipped_computation_staleness_witness :
    ((lookupEntry (parse_ws_kline_and_update st0 "X" .M5 kNeg 9) "X").map fun e' =>
        ((e'.metrics.get .M5).openTime, (e'.metrics.get .M5).openPrice,
          (e'.metrics.get .M5).baselinePrice, (e'.metrics.get .M5).volume,
          (e'.metrics.get .M5).turnover, (e'.metrics.get .M5).updatedAt)) =
      some (5, some (-5), some (-5), 2, 3, 9) ∧
    ((lookupEntry (parse_ws_kline_and_update st0 "X" .M5 kNeg 9) "X").map fun e' =>
        (e'.metrics.get .M5).changePercent) = some none ∧
    ((lookupEntry (parse_ws_kline_and_update st0 "X" .M5 kNeg 9) "X").map fun e' =>
        ((e'.metrics.get .M5).prevClose, (e'.metrics.get .M5).closeToClosePercent)) =
      some (none, none) := by
  have h := skipped_computation_staleness st0 "X" .M5 kNeg 9 (make_entry "X" "X" "USDT")
    ⟨5, -5, 7, 2, 3⟩ rfl rfl
  exact ⟨h.1, h.2.1 (by norm_num), h.2.2 (Or.inl rfl)⟩


/-! ### Index lemmas -/

theorem round_mono_q {a b : ℚ} (h : a ≤ b) : round a ≤ round b := by
  rw [round_eq, round_eq]
  exact Int.floor_le_floor (by linarith)

theorem round4_mono {a b : ℚ} (h : a ≤ b) : round4 a ≤ round4 b := by
  unfold round4
  have h2 : round (a * 10000) ≤ round (b * 10000) := round_mono_q (by linarith)
  have h3 : ((round (a * 10000) : ℤ) : ℚ) ≤ ((round (b * 10000) : ℤ) : ℚ) := by
    exact_mod_cast h2
  linarith

theorem round4_idem (q : ℚ) : round4 (round4 q) = round4 q := by
  unfold round4
  congr 1
  rw [div_mul_cancel₀ _ (by norm_num : (10000 : ℚ) ≠ 0)]
  exact_mod_cast round_intCast (round (q * 10000))

theorem mem_store_closed_history {ist : IndexState} {c c' : IndexCandle}
    (hc' : c' ∈ (store_closed_candle ist c).history) : c' ∈ ist.history ∨ c' = c := by
  unfold store_closed_candle at hc'
  dsimp only at hc'
  split at hc'
  · exact (List.mem_append.mp (List.mem_of_mem_drop hc')).imp id (by simp)
  · exact (List.mem_append.mp hc').imp id (by simp)

theorem update_phase_history (ist : IndexState) (stats : D1Stats) :
    (update_phase ist stats).history = ist.history := by
  unfold update_phase
  cases ist.active <;> rfl

theorem update_phase_prev (ist : IndexState) (stats : D1Stats) :
    (update_phase ist stats).prev_close_value = ist.prev_close_value := by
  unfold update_phase
  cases ist.active <;> rfl

theorem create_phase_some {ist : IndexState} {slot : Int} {count : ℕ} {force : Bool}
    {i2 : IndexState} (h : create_phase ist slot count force = some i2) :
    i2.history = ist.history ∧ i2.prev_close_value = ist.prev_close_value := by
  cases ha : ist.active with
  | some a =>
      simp only [create_phase, ha, Option.some.injEq] at h
      rw [← h]
      exact ⟨rfl, rfl⟩
  | none =>
      simp only [create_phase, ha] at h
      split at h
      · cases h
      · simp only [Option.some.injEq] at h
        rw [← h]
        exact ⟨rfl, rfl⟩

theorem create_phase_none_active {ist : IndexState} {slot : Int} {count : ℕ} {force : Bool}
    (h : create_phase ist slot count force = none) : ist.active = none := by
  cases ha : ist.active with
  | some a =>
      simp only [create_phase, ha] at h
      exact Option.noConfusion h
  | none => rfl

theorem IndexInv_init : IndexInv initIndexState := by
  constructor
  · intro c hc
    simp [initIndexState] at hc
  · intro c hc
    simp [initIndexState] at hc

theorem newIndexCandle_inv (slot : Int) (pc : ℚ) :
    CandleOK (newIndexCandle slot pc) ∧
      round4 (newIndexCandle slot pc).open_ = (newIndexCandle slot pc).open_ := by
  unfold CandleOK newIndexCandle
  simp [round4_idem]

theorem IndexInv_close_phase {ist : IndexState} (slot : Int) (h : IndexInv ist) :
    IndexInv (close_phase ist slot) := by
  cases ha : ist.active with
  | none => simpa only [close_phase, ha] using h
  | some ac =>
      by_cases hs : ac.startTime < slot
      · simp only [close_phase, ha, if_pos hs]
        constructor
        · intro c hc
          rcases mem_store_closed_history hc with hc | rfl
          · exact h.1 c hc
          · exact (h.2 _ ha).1
        · intro c hc
          simp at hc
      · simpa only [close_phase, ha, if_neg hs] using h

theorem IndexInv_create_phase {ist : IndexState} {slot : Int} {count : ℕ} {force : Bool}
    {i2 : IndexState} (hc : create_phase ist slot count force = some i2)
    (h : IndexInv ist) : IndexInv i2 := by
  cases ha : ist.active with
  | some a =>
      simp only [create_phase, ha, Option.some.injEq] at hc
      rw [← hc]
      exact h
  | none =>
      simp only [create_phase, ha] at hc
      split at hc
      · cases hc
      · simp only [Option.some.injEq] at hc
        rw [← hc]
        constructor
        · exact h.1
        · intro c hcc
          simp only [Option.some.injEq] at hcc
          rw [← hcc]
          exact newIndexCandle_inv slot ist.prev_close_value

theorem IndexInv_update_phase {ist : IndexState} (stats : D1Stats) (h : IndexInv ist) :
    IndexInv (update_phase ist stats) := by
  cases ha : ist.active with
  | none => simpa only [update_phase, ha] using h
  | some ac =>
    obtain ⟨⟨h1, h2, h3, h4⟩, hfix⟩ := h.2 ac ha
    simp only [update_phase, ha]
    constructor
    · exact h.1
    · intro c hc
      simp only [Option.some.injEq] at hc
      rw [← hc]
      refine ⟨⟨?_, ?_, ?_, ?_⟩, hfix⟩
      · calc round4 (min (min ac.low (-stats.netPercent)) ac.open_) ≤ round4 ac.open_ :=
              round4_mono (min_le_right _ _)
          _ = ac.open_ := hfix
      · calc ac.open_ = round4 ac.open_ := hfix.symm
          _ ≤ round4 (max (max ac.high (-stats.netPercent)) ac.open_) :=
              round4_mono (le_max_right _ _)
      · exact round4_mono (le_trans (min_le_left _ _) (min_le_right _ _))
      · exact round4_mono (le_trans (le_max_right _ _) (le_max_left _ _))

theorem IndexInv_step (st : Store) (now : Int) (force : Bool) {ist : IndexState}
    (h : IndexInv ist) : IndexInv (maybe_capture_index_candle st ist now force) := by
  unfold maybe_capture_index_candle
  have h1 := IndexInv_close_phase (tick_slot now) h
  cases hcp : create_phase (close_phase ist (tick_slot now)) (tick_slot now)
      (compute_d1_stats st).count force with
  | none => simpa only [hcp] using h1
  | some i2 =>
      simp only [hcp]
      exact IndexInv_update_phase _ (IndexInv_create_phase hcp h1)

/-- C7 (index candle OHLC bounds): in every reachable index state, every
closed or active candle satisfies `low ≤ open ≤ high` and
`low ≤ close ≤ high` on the stored rounded fields. -/
theorem index_candle_ohlc_bounds (ist : IndexState) (h : ReachableIndex ist) :
    ∀ c : IndexCandle, (c ∈ ist.history ∨ ist.active = some c) → CandleOK c := by
  have hinv : IndexInv ist := by
    induction h with
    | init => exact IndexInv_init
    | step st now force _ ih => exact IndexInv_step st now force ih
  intro c hc
  rcases hc with hc | hc
  · exact hinv.1 c hc
  · exact (hinv.2 c hc).1

/-- Witness for C7: the candle produced by one forced tick from the start
state satisfies the bounds. -/
theorem index_candle_ohlc_bounds_witness : CandleOK cW := by
  refine index_candle_ohlc_bounds _ (ReachableIndex.step stE 0 true ReachableIndex.init) cW
    (Or.inr ?_)
  norm_num [maybe_capture_index_candle, compute_d1_stats, close_phase, create_phase,
    update_phase, newIndexCandle, initIndexState, stE, tick_slot, INDEX_SLOT_MS,
    INDEX_BASE_VALUE, round4, store_closed_candle, Int.fdiv, cW]


theorem history_len_store_closed {ist : IndexState} {c : IndexCandle}
    (h : ist.history.length ≤ INDEX_MAX_CANDLES) :
    (store_closed_candle ist c).history.length ≤ INDEX_MAX_CANDLES := by
  unfold store_closed_candle
  dsimp only
  split
  · rw [List.length_drop]
    omega
  · rename_i hlen
    rw [Nat.not_lt] at hlen
    exact hlen

theorem history_len_close_phase {ist : IndexState} (slot : Int)
    (h : ist.history.length ≤ INDEX_MAX_CANDLES) :
    (close_phase ist slot).history.length ≤ INDEX_MAX_CANDLES := by
  cases ha : ist.active with
  | none => simpa only [close_phase, ha] using h
  | some ac =>
      by_cases hs : ac.startTime < slot
      · simp only [close_phase, ha, if_pos hs]
        exact history_len_store_closed h
      · simpa only [close_phase, ha, if_neg hs] using h

theorem history_len_step (st : Store) (now : Int) (force : Bool) {ist : IndexState}
    (h : ist.history.length ≤ INDEX_MAX_CANDLES) :
    (maybe_capture_index_candle st ist now force).history.length ≤ INDEX_MAX_CANDLES := by
  unfold maybe_capture_index_candle
  have h1 := history_len_close_phase (tick_slot now) h
  cases hcp : create_phase (close_phase ist (tick_slot now)) (tick_slot now)
      (compute_d1_stats st).count force with
  | none => simpa only [hcp] using h1
  | some i2 =>
      simp only [hcp]
      rw [update_phase_history, (create_phase_some hcp).1]
      exact h1

/-- C9 (history bounds): every reachable index state holds at most 1000
closed candles, and every export is a suffix of at most 720 closed candles
followed by at most one active candle, hence at most 721 entries. -/
theorem index_history_bounded :
    (∀ ist : IndexState, ReachableIndex ist → ist.history.length ≤ INDEX_MAX_CANDLES) ∧
    (∀ ist : IndexState, (export_index_history ist).length ≤ INDEX_HISTORY_EXPORT + 1 ∧
      ∃ hl a, export_index_history ist = hl ++ a ∧ hl <:+ ist.history ∧
        hl.length ≤ INDEX_HISTORY_EXPORT ∧
        ((ist.active = none ∧ a = []) ∨ ∃ c, ist.active = some c ∧ a = [c])) := by
  constructor
  · intro ist h
    induction h with
    | init => simp [initIndexState, INDEX_MAX_CANDLES]
    | step st now force _ ih => exact history_len_step st now force ih
  · intro ist
    have hsuf : (if ist.history.length ≤ INDEX_HISTORY_EXPORT then ist.history
        else ist.history.drop (ist.history.length - INDEX_HISTORY_EXPORT)) <:+ ist.history := by
      split
      · exact List.suffix_refl _
      · exact List.drop_suffix _ _
    have hlen : (if ist.history.length ≤ INDEX_HISTORY_EXPORT then ist.history
        else ist.history.drop (ist.history.length - INDEX_HISTORY_EXPORT)).length ≤
          INDEX_HISTORY_EXPORT := by
      split
      · assumption
      · rw [List.length_drop]
        omega
    cases ha : ist.active with
    | none =>
        refine ⟨?_, _, [], by simp [export_index_history, ha], hsuf, hlen, Or.inl ⟨rfl, rfl⟩⟩
        simp only [export_index_history, ha]
        omega
    | some ac =>
        refine ⟨?_, _, [ac], by simp [export_index_history, ha], hsuf, hlen,
          Or.inr ⟨ac, rfl, rfl⟩⟩
        simp only [export_index_history, ha, List.length_append, List.length_singleton]
        omega

/-- Witness for C9 at the start state. -/
theorem index_history_bounded_witness :
    initIndexState.history.length ≤ INDEX_MAX_CANDLES ∧
      (export_index_history initIndexState).length ≤ INDEX_HISTORY_EXPORT + 1 :=
  ⟨index_history_bounded.1 initIndexState ReachableIndex.init,
    (index_history_bounded.2 initIndexState).1⟩


theorem maybe_capture_eq (st : Store) (ist : IndexState) (now : Int) (force : Bool) :
    maybe_capture_index_candle st ist now force =
      match create_phase (close_phase ist (tick_slot now)) (tick_slot now)
          (compute_d1_stats st).count force with
      | none => close_phase ist (tick_slot now)
      | some i2 => update_phase i2 (compute_d1_stats st) := rfl

/-- C5 (index rollover): on a tick at time `now` with
`slot = (now // 3600000) * 3600000`, an active candle from an earlier slot
is frozen into the (truncated) history with its last close,
`prev_close_value` becomes that close and the active candle is cleared;
then, when no candle is active, a new one with `startTime = slot` and
`open = high = low = close = prev_close_value` is created exactly when the
D1 count is positive or the tick is forced (otherwise the tick stops after
the freeze); finally any active candle's close is `round(−netPercent, 4)`.
The two rounding hypotheses hold in every reachable state because every
stored value has passed through `round(..., 4)`. -/
theorem index_tick_rollover (st : Store) (ist : IndexState) (now : Int) (force : Bool)
    (hr : round4 ist.prev_close_value = ist.prev_close_value)
    (hra : ∀ ac, ist.active = some ac → round4 ac.close = ac.close) :
    (∀ ac, ist.active = some ac → ac.startTime < tick_slot now →
        (close_phase ist (tick_slot now)).history =
          (if INDEX_MAX_CANDLES < (ist.history ++ [ac]).length then (ist.history ++ [ac]).drop ((ist.history ++ [ac]).length - INDEX_MAX_CANDLES) else ist.history ++ [ac]) ∧
        (close_phase ist (tick_slot now)).prev_close_value = ac.close ∧
        (close_phase ist (tick_slot now)).active = none) ∧
    ((close_phase ist (tick_slot now)).active = none →
        ((compute_d1_stats st).count = 0 → force = false →
          maybe_capture_index_candle st ist now force = close_phase ist (tick_slot now)) ∧
        ((maybe_capture_index_candle st ist now force).active ≠ none ↔
          (0 < (compute_d1_stats st).count ∨ force = true)) ∧
        ((0 < (compute_d1_stats st).count ∨ force = true) →
          create_phase (close_phase ist (tick_slot now)) (tick_slot now)
              (compute_d1_stats st).count force =
            some { close_phase ist (tick_slot now) with active := some ⟨tick_slot now, (close_phase ist (tick_slot now)).prev_close_value, (close_phase ist (tick_slot now)).prev_close_value, (close_phase ist (tick_slot now)).prev_close_value, (close_phase ist (tick_slot now)).prev_close_value, 0, 0, 0, 0⟩ })) ∧
    (∀ a, (maybe_capture_index_candle st ist now force).active = some a →
        a.close = round4 (-(compute_d1_stats st).netPercent)) := by
  have hfix : round4 (close_phase ist (tick_slot now)).prev_close_value =
      (close_phase ist (tick_slot now)).prev_close_value := by
    cases ha : ist.active with
    | none => simpa only [close_phase, ha] using hr
    | some ac =>
        by_cases hs : ac.startTime < tick_slot now
        · simp only [close_phase, ha, if_pos hs, store_closed_candle]
          exact hra ac ha
        · simpa only [close_phase, ha, if_neg hs] using hr
  refine ⟨?_, ?_, ?_⟩
  · intro ac ha hs
    refine ⟨?_, ?_, ?_⟩ <;> simp [close_phase, ha, if_pos hs, store_closed_candle]
  · intro hnone
    have hB1 : (compute_d1_stats st).count = 0 → force = false →
        maybe_capture_index_candle st ist now force = close_phase ist (tick_slot now) := by
      intro hc0 hf
      have hcr : create_phase (close_phase ist (tick_slot now)) (tick_slot now)
          (compute_d1_stats st).count force = none := by
        simp only [create_phase, hnone]
        rw [if_pos (by simp [hf, hc0])]
      rw [maybe_capture_eq, hcr]
    have hB3 : (0 < (compute_d1_stats st).count ∨ force = true) →
        create_phase (close_phase ist (tick_slot now)) (tick_slot now)
            (compute_d1_stats st).count force =
          some { close_phase ist (tick_slot now) with active := some ⟨tick_slot now, (close_phase ist (tick_slot now)).prev_close_value, (close_phase ist (tick_slot now)).prev_close_value, (close_phase ist (tick_slot now)).prev_close_value, (close_phase ist (tick_slot now)).prev_close_value, 0, 0, 0, 0⟩ } := by
      intro h2
      simp only [create_phase, hnone]
      rw [if_neg ?_]
      · simp only [newIndexCandle, hfix]
      · rcases h2 with hpos | hf
        · simp [Nat.pos_iff_ne_zero.mp hpos]
        · simp [hf]
    refine ⟨hB1, ⟨?_, ?_⟩, hB3⟩
    · intro hne
      by_contra hcon
      rw [not_or] at hcon
      obtain ⟨h1, h2⟩ := hcon
      have hc0 : (compute_d1_stats st).count = 0 := Nat.eq_zero_of_not_pos h1
      have hf : force = false := by
        cases force
        · rfl
        · exact absurd rfl h2
      exact hne (by rw [hB1 hc0 hf]; exact hnone)
    · intro h2
      rw [maybe_capture_eq, hB3 h2]
      simp only [update_phase]
      simp
  · intro a hact
    rw [maybe_capture_eq] at hact
    cases hcp : create_phase (close_phase ist (tick_slot now)) (tick_slot now)
        (compute_d1_stats st).count force with
    | none =>
        rw [hcp] at hact
        rw [create_phase_none_active hcp] at hact
        exact Option.noConfusion hact
    | some i2 =>
        rw [hcp] at hact
        cases hai : i2.active with
        | none =>
            simp only [update_phase, hai] at hact
            exact Option.noConfusion hact
        | some ac =>
            simp only [update_phase, hai, Option.some.injEq] at hact
            rw [← hact]

/-- Witness for C5: a forced tick on the start state creates an active
candle. -/
theorem index_tick_rollover_witness :
    (maybe_capture_index_candle stE initIndexState 0 true).active ≠ none := by
  have h := index_tick_rollover stE initIndexState 0 true
    (by norm_num [round4, initIndexState, INDEX_BASE_VALUE])
    (by intro ac hac; simp [initIndexState] at hac)
  exact (h.2.1 rfl).2.1.mpr (Or.inr rfl)


/-- The rounding hypotheses of the rollover theorem hold in every reachable
index state: `prev_close_value` and the active close are always values that
have passed through `round(..., 4)`. -/
theorem roundfix_reachable {ist : IndexState} (h : ReachableIndex ist) :
    round4 ist.prev_close_value = ist.prev_close_value ∧
      ∀ ac, ist.active = some ac → round4 ac.close = ac.close := by
  induction h with
  | init =>
      constructor
      · simp [initIndexState, INDEX_BASE_VALUE, round4]
      · intro ac hac
        simp [initIndexState] at hac
  | step st now force h ih =>
      obtain ⟨ihp, iha⟩ := ih
      rename_i ist0
      have h1 : round4 (close_phase ist0 (tick_slot now)).prev_close_value =
          (close_phase ist0 (tick_slot now)).prev_close_value ∧
          ∀ ac, (close_phase ist0 (tick_slot now)).active = some ac →
            round4 ac.close = ac.close := by
        cases ha : ist0.active with
        | none =>
            constructor
            · simpa only [close_phase, ha] using ihp
            · intro ac hac
              simp only [close_phase, ha] at hac
              exact iha ac (ha ▸ hac)
        | some ac =>
            by_cases hs : ac.startTime < tick_slot now
            · constructor
              · simp only [close_phase, ha, if_pos hs, store_closed_candle]
                exact iha ac ha
              · intro ac' hac'
                simp only [close_phase, ha, if_pos hs] at hac'
                exact Option.noConfusion hac'
            · constructor
              · simpa only [close_phase, ha, if_neg hs] using ihp
              · intro ac' hac'
                simp only [close_phase, ha, if_neg hs] at hac'
                obtain rfl := Option.some.inj hac'
                exact iha _ ha
      rw [maybe_capture_eq]
      cases hcp : create_phase (close_phase ist0 (tick_slot now)) (tick_slot now)
          (compute_d1_stats st).count force with
      | none => exact h1
      | some i2 =>
          have h2p : round4 i2.prev_close_value = i2.prev_close_value := by
            rw [(create_phase_some hcp).2]
            exact h1.1
          constructor
          · rw [update_phase_prev]
            exact h2p
          · intro ac hac
            cases hai : i2.active with
            | none =>
                simp only [update_phase, hai] at hac
                exact Option.noConfusion hac
            | some ac0 =>
                simp only [update_phase, hai, Option.some.injEq] at hac
                rw [← hac]
                exact round4_idem _

end BybitSite
